import Mathlib

/-!
Shallow embedding of the cypress session lifecycle subsystem: the Session
entity with its value mapping and dirty flag, the serialization codec that
turns the value mapping into a byte stream of a type registry, the three
SessionStore backends (in-memory, file-based, redis-backed key-value), and
the request-scoped context carrier. Go maps are modelled as association
lists, pointers as structural state updates, wall-clock instants as natural
numbers, and the gob codec as an executable byte-level encoder and decoder
over the universe of registered value types. Panics of the source are
modelled as distinguished outcomes.
-/

namespace Cypress

/-! ## Association-list model of Go maps keyed by strings -/

/-- Lookup in an association list, first match wins, modelling Go map
indexing m[k]. -/
def mapLookup {α : Type} : List (String × α) → String → Option α
  | [], _ => none
  | (k, v) :: rest, key => if k = key then some v else mapLookup rest key

/-- Removal of a key, modelling the Go builtin delete(m, k). -/
def mapDelete {α : Type} (m : List (String × α)) (key : String) :
    List (String × α) :=
  m.filter (fun p => p.1 ≠ key)

/-- Update of a key, modelling the Go assignment m[k] = v. -/
def mapSet {α : Type} (m : List (String × α)) (key : String) (v : α) :
    List (String × α) :=
  (key, v) :: mapDelete m key

/-! ## The universe of session values

Session values in Go are interface values; gob can encode them only when
their concrete type has been registered with gob.Register. The universe
below models the registered types by concrete constructors, plus one
constructor for a value whose concrete type was never registered, on which
the codec fails. -/

/-- A session value: either of a gob-registered concrete type, or of an
unregistered type on which encoding fails. -/
inductive GobValue where
  | str (s : String)
  | int (n : Int)
  | boolean (b : Bool)
  | unregistered (typeName : String)
deriving DecidableEq, Repr

/-- Whether the concrete type of the value has been registered with the
codec. -/
def GobValue.registered : GobValue → Bool
  | .unregistered _ => false
  | _ => true

/-- All values of the mapping are of registered types. -/
def allRegistered (m : List (String × GobValue)) : Bool :=
  m.all (fun p => p.2.registered)

/-! ## Session entity, from the Session struct -/

/-- The Session struct: identifier, validity flag, dirty flag and the
key-to-value data mapping. The sync.RWMutex field has no sequential
content and is omitted. -/
structure Session where
  ID : String
  IsValid : Bool
  isDirty : Bool
  data : List (String × GobValue)
deriving DecidableEq, Repr

/-- NewSession: a fresh valid, clean session with empty data. -/
def NewSession (id : String) : Session :=
  { ID := id, IsValid := true, isDirty := false, data := [] }

/-- SetValue: stores value under key, marks the session dirty, and returns
the previous value together with the key-existed indicator. -/
def Session.SetValue (s : Session) (key : String) (value : GobValue) :
    (Option GobValue × Bool) × Session :=
  let old := mapLookup s.data key
  ((old, old.isSome),
   { s with data := mapSet s.data key value, isDirty := true })

/-- GetValue: reads the value under key without touching the dirty flag. -/
def Session.GetValue (s : Session) (key : String) : Option GobValue × Bool :=
  let v := mapLookup s.data key
  (v, v.isSome)

/-- GetAsFlashValue: reads the value under key, removes the key when it
exists, sets the dirty flag (the source sets it unconditionally), and
returns the value with the key-existed indicator. -/
def Session.GetAsFlashValue (s : Session) (key : String) :
    (Option GobValue × Bool) × Session :=
  let v := mapLookup s.data key
  let newData := if v.isSome then mapDelete s.data key else s.data
  ((v, v.isSome), { s with data := newData, isDirty := true })

/-- NeedSave: whether the session was mutated since creation or last
load. -/
def Session.NeedSave (s : Session) : Bool :=
  s.isDirty

/-! ## The gob codec, modelled at the byte level

The source serializes the data map with encoding/gob. The model encodes
the association list into a list of naturals playing the role of the byte
stream: strings are length-prefixed character codes, integers carry a sign
tag, booleans one bit, and each value is preceded by a type tag. Encoding
fails (gob returns an error, the source panics) on an unregistered value
type; decoding fails on a malformed stream. -/

/-- Encode a string as its length followed by its character codes. -/
def encodeString (s : String) : List Nat :=
  s.toList.length :: s.toList.map Char.toNat

/-- Decode a length-prefixed string, returning the remaining stream. -/
def decodeString (bs : List Nat) : Option (String × List Nat) :=
  match bs with
  | [] => none
  | n :: rest =>
    if n ≤ rest.length then
      some (String.mk ((rest.take n).map Char.ofNat), rest.drop n)
    else none

/-- Encode an integer as a sign tag and a magnitude. -/
def encodeInt (n : Int) : List Nat :=
  if 0 ≤ n then [0, n.toNat] else [1, (-n).toNat]

/-- Decode a sign-tagged integer, returning the remaining stream. -/
def decodeInt (bs : List Nat) : Option (Int × List Nat) :=
  match bs with
  | 0 :: m :: rest => some ((m : Int), rest)
  | 1 :: m :: rest => some (-(m : Int), rest)
  | _ => none

/-- Encode one session value with its type tag; fails on an unregistered
type. -/
def encodeValue : GobValue → Option (List Nat)
  | .str s => some (0 :: encodeString s)
  | .int n => some (1 :: encodeInt n)
  | .boolean b => some (2 :: [cond b 1 0])
  | .unregistered _ => none

/-- Decode one type-tagged session value, returning the remaining
stream. -/
def decodeValue : List Nat → Option (GobValue × List Nat)
  | 0 :: rest =>
    (decodeString rest).map (fun p => (GobValue.str p.1, p.2))
  | 1 :: rest =>
    (decodeInt rest).map (fun p => (GobValue.int p.1, p.2))
  | 2 :: b :: rest => some (GobValue.boolean (b == 1), rest)
  | _ => none

/-- Encode one key-value entry of the data mapping. -/
def encodeEntry (e : String × GobValue) : Option (List Nat) :=
  (encodeValue e.2).map (fun vb => encodeString e.1 ++ vb)

/-- Encode the entries of the data mapping in sequence. -/
def encodeEntries : List (String × GobValue) → Option (List Nat)
  | [] => some []
  | e :: rest => do
    let eb ← encodeEntry e
    let rb ← encodeEntries rest
    pure (eb ++ rb)

/-- Decode the given number of key-value entries, returning the remaining
stream. -/
def decodeEntries : Nat → List Nat → Option (List (String × GobValue) × List Nat)
  | 0, bs => some ([], bs)
  | n + 1, bs => do
    let (k, bs1) ← decodeString bs
    let (v, bs2) ← decodeValue bs1
    let (es, bs3) ← decodeEntries n bs2
    pure ((k, v) :: es, bs3)

/-- Serialize: encodes the whole data mapping, entry count first. The
source panics when gob reports an error; the model returns none there. -/
def Session.Serialize (s : Session) : Option (List Nat) :=
  (encodeEntries s.data).map (fun bs => s.data.length :: bs)

/-- Merge decoded entries into an existing data mapping; gob decoding into
a non-nil Go map adds the decoded entries to it, overwriting equal keys. -/
def mergeEntries (m : List (String × GobValue))
    (es : List (String × GobValue)) : List (String × GobValue) :=
  es.foldl (fun acc e => mapSet acc e.1 e.2) m

/-- Deserialize: decodes the byte stream into the data mapping of the
session. The source panics when gob reports an error; the model returns
none there. -/
def Session.Deserialize (s : Session) (bytes : List Nat) : Option Session :=
  match bytes with
  | [] => none
  | n :: rest =>
    match decodeEntries n rest with
    | some (es, []) => some { s with data := mergeEntries s.data es }
    | _ => none

/-! ## Store errors and outcomes -/

/-- Errors observable from the store operations. errSessionNotFound is the
package-level ErrSessionNotFound; decodeError stands for the raw gob
decode error that fileSessionStore.readSession returns unchanged;
ioError stands for a backend or filesystem error surfaced as is; panicked
marks a code path on which the source panics instead of returning. -/
inductive StoreError where
  | errSessionNotFound
  | errFileRequired
  | decodeError
  | ioError
  | panicked
deriving DecidableEq, Repr

/-! ## In-memory session store, from session_inmem.go

State: the sessions map from ID to sessionItem, an association list. The
ambient clock time.Now() becomes an explicit now argument. Pointer
mutation of the stored item becomes a structural update of the map. -/

/-- The sessionItem pairing the stored session with its absolute
expiration instant. -/
structure SessionItem where
  session : Session
  expiration : Nat
deriving DecidableEq, Repr

/-- inMemorySessionStore.Save: an invalid session is deleted from the map;
for a valid one, when an entry for the ID exists, is itself valid and its
expiration is strictly after now, only that entry gets expiration now plus
timeout, the stored session object staying in place; otherwise the slot is
replaced wholesale by the given session with expiration now plus
timeout. Always returns a nil error, modelled by returning only the new
map. -/
def inMemSave (store : List (String × SessionItem)) (session : Session)
    (timeout now : Nat) : List (String × SessionItem) :=
  if session.IsValid then
    match mapLookup store session.ID with
    | some item =>
      if item.session.IsValid = true ∧ now < item.expiration then
        mapSet store session.ID { item with expiration := now + timeout }
      else
        mapSet store session.ID ⟨session, now + timeout⟩
    | none => mapSet store session.ID ⟨session, now + timeout⟩
  else
    mapDelete store session.ID

/-- inMemorySessionStore.Get: a missing entry or one whose expiration is
strictly before now yields ErrSessionNotFound; otherwise the stored
session has its dirty flag cleared in place and is returned. The updated
map reflects the in-place clearing of the dirty flag. -/
def inMemGet (store : List (String × SessionItem)) (id : String)
    (now : Nat) :
    List (String × SessionItem) × Except StoreError Session :=
  match mapLookup store id with
  | none => (store, .error .errSessionNotFound)
  | some item =>
    if item.expiration < now then (store, .error .errSessionNotFound)
    else
      let s := { item.session with isDirty := false }
      (mapSet store id { item with session := s }, .ok s)

/-! ## File session store, from session_file.go

State: the directory content, an association list from session ID (the
file name) to the raw bytes of the file. The persisted fileSessionItem
pairs the serialized session data with its expiration; its gob encoding is
modelled as the data length, the data bytes and the expiration. -/

/-- Encoding of the persisted fileSessionItem: data length prefix, data
bytes, expiration instant. -/
def encodeFileItem (dataBytes : List Nat) (expiration : Nat) : List Nat :=
  dataBytes.length :: dataBytes ++ [expiration]

/-- Decoding of a persisted fileSessionItem; fails on a malformed file:
the remainder after the length prefix must consist of exactly the data
bytes followed by the expiration instant. -/
def decodeFileItem : List Nat → Option (List Nat × Nat)
  | [] => none
  | n :: rest =>
    if rest.length = n + 1 then some (rest.take n, (rest.drop n).headD 0)
    else none

/-- fileSessionStore.Save: an invalid session has its file removed, a
removal failure (modelled by the removeFails flag) being logged only, the
returned error being nil either way; a valid session is serialized first,
the old file removed and a fresh file written with expiration now plus
timeout. The outer none models the panic of Session.Serialize on an
unregistered value type. -/
def fileSave (fs : List (String × List Nat)) (session : Session)
    (timeout now : Nat) (removeFails : Bool) :
    Option (List (String × List Nat) × Option StoreError) :=
  if session.IsValid then
    match session.Serialize with
    | none => none
    | some bytes =>
      some (mapSet fs session.ID (encodeFileItem bytes (now + timeout)),
            none)
  else
    some (if removeFails then fs else mapDelete fs session.ID, none)

/-- fileSessionStore.readSession: a missing file yields
ErrSessionNotFound, a gob decode failure yields the raw decode error
unchanged. -/
def readSession (fs : List (String × List Nat)) (id : String) :
    Except StoreError (List Nat × Nat) :=
  match mapLookup fs id with
  | none => .error .errSessionNotFound
  | some content =>
    match decodeFileItem content with
    | none => .error .decodeError
    | some item => .ok item

/-- fileSessionStore.Get: propagates any readSession error as is, yields
ErrSessionNotFound when the persisted expiration is strictly before now,
and otherwise deserializes the data bytes into a fresh session.
StoreError.panicked marks the path on which Session.Deserialize panics on
corrupt data bytes. -/
def fileGet (fs : List (String × List Nat)) (id : String) (now : Nat) :
    Except StoreError Session :=
  match readSession fs id with
  | .error e => .error e
  | .ok (dataBytes, expiration) =>
    if expiration < now then .error .errSessionNotFound
    else
      match (NewSession id).Deserialize dataBytes with
      | some s => .ok s
      | none => .error .panicked

/-! ## Redis session store, from session_redis.go

State: the remote key-value mapping plus a flag injecting a backend error
on the Del command, so that error propagation on the delete path is
observable. -/

/-- The modelled state of the redis backend. -/
structure RedisState where
  kv : List (String × List Nat)
  delFails : Bool
deriving DecidableEq, Repr

/-- redisSessionStore.Save: an invalid session is deleted with Del and the
status error of Del is returned to the caller; a valid session is
serialized and stored with Set under the TTL of the backend. The outer
none models the panic of Session.Serialize. -/
def redisSave (st : RedisState) (session : Session) :
    Option (RedisState × Option StoreError) :=
  if session.IsValid then
    match session.Serialize with
    | none => none
    | some bytes =>
      some ({ st with kv := mapSet st.kv session.ID bytes }, none)
  else
    if st.delFails then some (st, some .ioError)
    else some ({ st with kv := mapDelete st.kv session.ID }, none)

/-- redisSessionStore.Get: any backend read failure or absence is
normalized to ErrSessionNotFound; the retrieved bytes are deserialized
into a fresh session, StoreError.panicked marking the panic of
Session.Deserialize on corrupt bytes. -/
def redisGet (st : RedisState) (id : String) : Except StoreError Session :=
  match mapLookup st.kv id with
  | none => .error .errSessionNotFound
  | some bytes =>
    match (NewSession id).Deserialize bytes with
    | some s => .ok s
    | none => .error .panicked

/-! ## Request-scoped context carrier, the multiValueCtx type

Keys of context Value calls are interface values; the model distinguishes
a key whose dynamic type is string from a key of any other type, the
latter carrying a type name and an underlying name so that a non-string
key with a matching string name is expressible. The carrier keeps a local
string-keyed overlay over a wrapped parent context; the base of a chain
answers lookups by an arbitrary function. -/

/-- A context key: either a plain string, or a value of some non-string
dynamic type with an underlying name. -/
inductive CtxKey where
  | str (s : String)
  | nonStr (typeName : String) (name : String)
deriving DecidableEq, Repr

/-- A context: a base context answering by a function, or a multiValueCtx
carrier holding a string-keyed overlay over a parent context. -/
inductive Ctx (α : Type) where
  | base (f : CtxKey → Option α)
  | carrier (values : List (String × α)) (parent : Ctx α)

/-- multiValueCtx.Value: when the key asserts to a string, the local
overlay is consulted first and a hit is returned; otherwise the call
delegates to the parent context. A base context answers by its own
function. -/
def Ctx.Value {α : Type} : Ctx α → CtxKey → Option α
  | .base f, k => f k
  | .carrier values parent, k =>
    match k with
    | .str s =>
      match mapLookup values s with
      | some v => some v
      | none => parent.Value k
    | .nonStr _ _ => parent.Value k

/-- multiValueCtx.withValue: in-place update of the local overlay of the
carrier built from the given overlay and parent. -/
def carrierWithValue {α : Type} (values : List (String × α))
    (parent : Ctx α) (key : String) (v : α) : Ctx α :=
  .carrier (mapSet values key v) parent

/-- A chain of carriers wrapping a base context, innermost overlay
first. -/
def nestCarriers {α : Type} (ovs : List (List (String × α)))
    (base : Ctx α) : Ctx α :=
  ovs.foldr (fun ov c => .carrier ov c) base

/-! ## Lemmas on the association-list map operations -/

theorem mapLookup_mapSet_self {α : Type} (m : List (String × α))
    (key : String) (v : α) : mapLookup (mapSet m key v) key = some v := by
  simp [mapLookup, mapSet]

theorem mapLookup_mapDelete_ne {α : Type} (m : List (String × α))
    {k key : String} (h : k ≠ key) :
    mapLookup (mapDelete m k) key = mapLookup m key := by
  induction m with
  | nil => rfl
  | cons p rest ih =>
    rcases p with ⟨pk, pv⟩
    by_cases hp : pk = k
    · have hpk : pk ≠ key := by rw [hp]; exact h
      simp only [mapDelete, List.filter_cons] at *
      rw [if_neg (by simp [hp])]
      rw [show mapLookup ((pk, pv) :: rest) key = mapLookup rest key by
            simp [mapLookup, hpk]]
      exact ih
    · simp only [mapDelete, List.filter_cons] at *
      rw [if_pos (by simp [hp])]
      by_cases hk : pk = key
      · simp [mapLookup, hk]
      · simp only [mapLookup, hk, if_false]
        exact ih

theorem mapLookup_mapDelete_self {α : Type} (m : List (String × α))
    (key : String) : mapLookup (mapDelete m key) key = none := by
  induction m with
  | nil => rfl
  | cons p rest ih =>
    rcases p with ⟨pk, pv⟩
    by_cases hp : pk = key
    · simp only [mapDelete, List.filter_cons] at *
      rw [if_neg (by simp [hp])]
      exact ih
    · simp only [mapDelete, List.filter_cons] at *
      rw [if_pos (by simp [hp])]
      simp only [mapLookup, hp, if_false]
      exact ih

theorem mapLookup_mapSet_ne {α : Type} (m : List (String × α))
    {k key : String} (v : α) (h : k ≠ key) :
    mapLookup (mapSet m k v) key = mapLookup m key := by
  simp only [mapSet, mapLookup, h, if_false]
  exact mapLookup_mapDelete_ne m h

/-! ## Lemmas on merging decoded entries -/

theorem mergeEntries_cons (m : List (String × GobValue))
    (e : String × GobValue) (es : List (String × GobValue)) :
    mergeEntries m (e :: es) = mergeEntries (mapSet m e.1 e.2) es := by
  rfl

theorem mapLookup_mergeEntries_not_mem (m : List (String × GobValue))
    (es : List (String × GobValue)) {key : String}
    (h : key ∉ es.map Prod.fst) :
    mapLookup (mergeEntries m es) key = mapLookup m key := by
  induction es generalizing m with
  | nil => rfl
  | cons e rest ih =>
    simp only [List.map_cons, List.mem_cons] at h
    push_neg at h
    rw [mergeEntries_cons]
    rw [ih (mapSet m e.1 e.2) h.2]
    exact mapLookup_mapSet_ne m e.2 (fun he => h.1 he.symm)

theorem mapLookup_mergeEntries (es : List (String × GobValue))
    (hnd : (es.map Prod.fst).Nodup) (m : List (String × GobValue))
    (key : String) :
    mapLookup (mergeEntries m es) key =
      (mapLookup es key).elim (mapLookup m key) some := by
  induction es generalizing m with
  | nil => rfl
  | cons e rest ih =>
    rcases e with ⟨k, v⟩
    simp only [List.map_cons, List.nodup_cons] at hnd
    rw [mergeEntries_cons]
    by_cases hk : k = key
    · subst hk
      rw [mapLookup_mergeEntries_not_mem _ _ hnd.1, mapLookup_mapSet_self]
      simp [mapLookup]
    · rw [ih hnd.2]
      simp only [mapLookup, hk, if_false]
      cases hrk : mapLookup rest key with
      | none =>
        simp only [Option.elim]
        exact mapLookup_mapDelete_ne m hk
      | some w => simp [Option.elim]

/-! ## Roundtrip lemmas for the codec -/

theorem char_ofNat_toNat (c : Char) : Char.ofNat c.toNat = c := by
  rcases c with ⟨⟨⟨n, h⟩⟩, hv⟩
  simp only [Char.ofNat, Char.toNat]
  split
  · apply Char.ext
    apply UInt32.ext
    simp [Char.ofNatAux, UInt32.ofNat, BitVec.ofNat, Fin.ofNat, UInt32.toNat]
  · rename_i hn
    exact absurd hv hn

theorem decodeString_encodeString (s : String) (rest : List Nat) :
    decodeString (encodeString s ++ rest) = some (s, rest) := by
  have hlen : (s.toList.map Char.toNat).length = s.toList.length := by
    simp
  have htake : ((s.toList.map Char.toNat) ++ rest).take s.toList.length
      = s.toList.map Char.toNat := by
    rw [← hlen, List.take_left]
  have hdrop : ((s.toList.map Char.toNat) ++ rest).drop s.toList.length
      = rest := by
    rw [← hlen, List.drop_left]
  have hmap : (s.toList.map Char.toNat).map Char.ofNat = s.toList := by
    rw [List.map_map]
    have hid : (Char.ofNat ∘ Char.toNat) = id := by
      funext c
      exact char_ofNat_toNat c
    rw [hid, List.map_id]
  simp only [decodeString, encodeString, List.cons_append]
  rw [if_pos (by simp), htake, hdrop, hmap]
  cases s
  rfl

theorem decodeInt_encodeInt (n : Int) (rest : List Nat) :
    decodeInt (encodeInt n ++ rest) = some (n, rest) := by
  by_cases h : 0 ≤ n
  · simp [encodeInt, decodeInt, h, Int.toNat_of_nonneg h]
  · have h2 : 0 ≤ -n := by omega
    simp [encodeInt, decodeInt, h, Int.toNat_of_nonneg h2]

theorem decodeValue_encodeValue (v : GobValue) (bs rest : List Nat)
    (h : encodeValue v = some bs) :
    decodeValue (bs ++ rest) = some (v, rest) := by
  cases v with
  | str s =>
    simp only [encodeValue, Option.some.injEq] at h
    subst h
    simp [decodeValue, decodeString_encodeString]
  | int n =>
    simp only [encodeValue, Option.some.injEq] at h
    subst h
    simp [decodeValue, decodeInt_encodeInt]
  | boolean b =>
    simp only [encodeValue, Option.some.injEq] at h
    subst h
    cases b <;> simp [decodeValue]
  | unregistered t => simp [encodeValue] at h

theorem decodeEntries_encodeEntries (es : List (String × GobValue))
    (bs rest : List Nat) (h : encodeEntries es = some bs) :
    decodeEntries es.length (bs ++ rest) = some (es, rest) := by
  induction es generalizing bs rest with
  | nil =>
    simp only [encodeEntries, Option.some.injEq] at h
    subst h
    rfl
  | cons e tail ih =>
    cases he : encodeEntry e with
    | none => rw [encodeEntries, he] at h; simp at h
    | some eb =>
      cases ht : encodeEntries tail with
      | none => rw [encodeEntries, he, ht] at h; simp at h
      | some tb =>
        rw [encodeEntries, he, ht] at h
        simp only [Option.bind_eq_bind, Option.some_bind,
          Option.pure_def, Option.some.injEq] at h
        cases hv : encodeValue e.2 with
        | none => rw [encodeEntry, hv] at he; simp at he
        | some vb =>
          rw [encodeEntry, hv] at he
          simp only [Option.map_some', Option.some.injEq] at he
          subst he
          subst h
          simp only [List.length_cons, decodeEntries, List.append_assoc,
            List.cons_append, Option.bind_eq_bind]
          rw [decodeString_encodeString]
          simp only [Option.some_bind]
          rw [decodeValue_encodeValue e.2 vb (tb ++ rest) hv]
          simp only [Option.some_bind]
          rw [ih tb rest ht]
          rfl

theorem encodeEntries_isSome (m : List (String × GobValue))
    (h : allRegistered m = true) : ∃ bs, encodeEntries m = some bs := by
  induction m with
  | nil => exact ⟨[], rfl⟩
  | cons e tail ih =>
    simp only [allRegistered, List.all_cons, Bool.and_eq_true] at h
    obtain ⟨tb, htb⟩ := ih h.2
    have hv : ∃ vb, encodeValue e.2 = some vb := by
      cases hev : e.2 with
      | unregistered t =>
        rw [hev] at h
        simp [GobValue.registered] at h
      | str s => exact ⟨_, rfl⟩
      | int n => exact ⟨_, rfl⟩
      | boolean b => exact ⟨_, rfl⟩
    obtain ⟨vb, hvb⟩ := hv
    refine ⟨encodeString e.1 ++ vb ++ tb, ?_⟩
    simp [encodeEntries, encodeEntry, hvb, htb]

/-! ## Claim C1: codec roundtrip -/

/-- C1: for every session whose value mapping contains only values of
registered types, calling Deserialize on the bytes produced by Serialize
yields a value mapping equal to the original mapping for every key — both
when decoding into a fresh session, the way the file and redis stores
reload sessions, and when decoding back into the session itself. The
mapping of a session is a Go map, so its keys carry no duplicates, which
the Nodup hypothesis records. -/
theorem C1_serialize_deserialize_roundtrip (s : Session) (id : String)
    (hreg : allRegistered s.data = true)
    (hnd : (s.data.map Prod.fst).Nodup) :
    ∃ bytes tF tS,
      s.Serialize = some bytes ∧
      (NewSession id).Deserialize bytes = some tF ∧
      s.Deserialize bytes = some tS ∧
      (∀ key, mapLookup tF.data key = mapLookup s.data key) ∧
      (∀ key, mapLookup tS.data key = mapLookup s.data key) := by
  obtain ⟨bs, hbs⟩ := encodeEntries_isSome s.data hreg
  have hdec : decodeEntries s.data.length bs = some (s.data, []) := by
    have := decodeEntries_encodeEntries s.data bs [] hbs
    rwa [List.append_nil] at this
  refine ⟨s.data.length :: bs,
    { NewSession id with data := mergeEntries (NewSession id).data s.data },
    { s with data := mergeEntries s.data s.data }, ?_, ?_, ?_, ?_, ?_⟩
  · simp [Session.Serialize, hbs]
  · simp [Session.Deserialize, hdec]
  · simp [Session.Deserialize, hdec]
  · intro key
    rw [mapLookup_mergeEntries s.data hnd]
    cases mapLookup s.data key <;> simp [NewSession, mapLookup]
  · intro key
    rw [mapLookup_mergeEntries s.data hnd]
    cases mapLookup s.data key <;> simp

/-- Concrete instance of the C1 roundtrip on a two-entry session of
registered value types. -/
theorem C1_serialize_deserialize_roundtrip_witness :
    allRegistered [("a", GobValue.str "x"), ("b", GobValue.int 3)] = true ∧
    (([("a", GobValue.str "x"), ("b", GobValue.int 3)].map
        Prod.fst).Nodup) ∧
    (∃ bytes tF tS,
      (Session.mk "sid" true false
          [("a", GobValue.str "x"), ("b", GobValue.int 3)]).Serialize
        = some bytes ∧
      (NewSession "fresh").Deserialize bytes = some tF ∧
      (Session.mk "sid" true false
          [("a", GobValue.str "x"), ("b", GobValue.int 3)]).Deserialize
          bytes = some tS ∧
      (∀ key, mapLookup tF.data key =
        mapLookup [("a", GobValue.str "x"), ("b", GobValue.int 3)] key) ∧
      (∀ key, mapLookup tS.data key =
        mapLookup [("a", GobValue.str "x"), ("b", GobValue.int 3)] key)) :=
  ⟨by decide, by decide,
   C1_serialize_deserialize_roundtrip
     (Session.mk "sid" true false
       [("a", GobValue.str "x"), ("b", GobValue.int 3)]) "fresh"
     (by decide) (by decide)⟩

/-! ## Claim C6: flash values -/

/-- C6: GetAsFlashValue returns the value under the key together with the
key-existed indicator and removes the key in the same step, the session
is dirty afterwards whenever the key existed, and a second
GetAsFlashValue with the same key returns none and false. -/
theorem C6_get_as_flash_value (s : Session) (key : String) :
    (s.GetAsFlashValue key).1
      = (mapLookup s.data key, (mapLookup s.data key).isSome) ∧
    mapLookup ((s.GetAsFlashValue key).2).data key = none ∧
    ((s.GetAsFlashValue key).1.2 = true →
      ((s.GetAsFlashValue key).2).NeedSave = true) ∧
    (((s.GetAsFlashValue key).2).GetAsFlashValue key).1 = (none, false) := by
  refine ⟨rfl, ?_, fun _ => rfl, ?_⟩
  · cases h : mapLookup s.data key with
    | none => simp [Session.GetAsFlashValue, h]
    | some v =>
      simp [Session.GetAsFlashValue, h, mapLookup_mapDelete_self]
  · cases h : mapLookup s.data key with
    | none => simp [Session.GetAsFlashValue, h]
    | some v =>
      simp [Session.GetAsFlashValue, h, mapLookup_mapDelete_self]

/-! ## Claim C7: dirty flag discipline -/

/-- The fields of a session other than the data mapping survive
Deserialize unchanged. -/
theorem deserialize_fields (s t : Session) (bs : List Nat)
    (h : s.Deserialize bs = some t) :
    t.ID = s.ID ∧ t.IsValid = s.IsValid ∧ t.isDirty = s.isDirty := by
  cases bs with
  | nil => simp [Session.Deserialize] at h
  | cons n rest =>
    simp only [Session.Deserialize] at h
    cases hd : decodeEntries n rest with
    | none => rw [hd] at h; simp at h
    | some p =>
      rcases p with ⟨es, rem⟩
      cases rem with
      | nil =>
        rw [hd] at h
        simp only [Option.some.injEq] at h
        subst h
        exact ⟨rfl, rfl, rfl⟩
      | cons b bs2 => rw [hd] at h; simp at h

/-- C7: a session returned by a successful Get of any of the three stores
reports NeedSave false, and a SetValue or GetAsFlashValue call on any
session makes NeedSave report true afterwards. -/
theorem C7_dirty_flag_discipline (store : List (String × SessionItem))
    (id : String) (now : Nat) (fs : List (String × List Nat))
    (fid : String) (fnow : Nat) (rst : RedisState) (rid : String)
    (s1 s2 s3 s : Session) (key : String) (v : GobValue)
    (h1 : (inMemGet store id now).2 = .ok s1)
    (h2 : fileGet fs fid fnow = .ok s2)
    (h3 : redisGet rst rid = .ok s3) :
    s1.NeedSave = false ∧ s2.NeedSave = false ∧ s3.NeedSave = false ∧
    ((s.SetValue key v).2).NeedSave = true ∧
    ((s.GetAsFlashValue key).2).NeedSave = true := by
  refine ⟨?_, ?_, ?_, rfl, rfl⟩
  · simp only [inMemGet] at h1
    split at h1
    · simp at h1
    · split at h1
      · simp at h1
      · simp only [Except.ok.injEq] at h1
        subst h1
        rfl
  · simp only [fileGet] at h2
    split at h2
    · simp at h2
    · split at h2
      · simp at h2
      · split at h2
        · rename_i t hd
          simp only [Except.ok.injEq] at h2
          subst h2
          have := (deserialize_fields _ _ _ hd).2.2
          simpa [Session.NeedSave, NewSession] using this
        · simp at h2
  · simp only [redisGet] at h3
    split at h3
    · simp at h3
    · split at h3
      · rename_i t hd
        simp only [Except.ok.injEq] at h3
        subst h3
        have := (deserialize_fields _ _ _ hd).2.2
        simpa [Session.NeedSave, NewSession] using this
      · simp at h3

/-- Concrete instance of the C7 dirty flag discipline: each of the three
stores returns a clean session on a successful Get, and mutators flip the
flag on a concrete session. -/
theorem C7_dirty_flag_discipline_witness :
    (inMemGet [("i", ⟨Session.mk "i" true true [], 10⟩)] "i" 0).2
      = .ok (Session.mk "i" true false []) ∧
    fileGet [("f", [1, 0, 10])] "f" 0
      = .ok (Session.mk "f" true false []) ∧
    redisGet ⟨[("r", [0])], false⟩ "r"
      = .ok (Session.mk "r" true false []) ∧
    ((Session.mk "i" true false []).NeedSave = false ∧
     (Session.mk "f" true false []).NeedSave = false ∧
     (Session.mk "r" true false []).NeedSave = false ∧
     (((NewSession "w").SetValue "k" (GobValue.int 1)).2).NeedSave
       = true ∧
     (((NewSession "w").GetAsFlashValue "k").2).NeedSave = true) :=
  ⟨rfl, rfl, rfl,
   C7_dirty_flag_discipline
     [("i", ⟨Session.mk "i" true true [], 10⟩)] "i" 0
     [("f", [1, 0, 10])] "f" 0 ⟨[("r", [0])], false⟩ "r"
     (Session.mk "i" true false []) (Session.mk "f" true false [])
     (Session.mk "r" true false []) (NewSession "w") "k"
     (GobValue.int 1) rfl rfl rfl⟩

/-! ## Claims C9 and C10: context carrier lookup -/

/-- Whether a Value lookup with the given key falls through the given
overlay: a string key falls through when absent from the overlay, a key
of non-string dynamic type always falls through. -/
def overlayMisses {α : Type} (ov : List (String × α)) : CtxKey → Bool
  | .str s => (mapLookup ov s).isNone
  | .nonStr _ _ => true

/-- C9: a key stored in the overlay of a carrier through withValue is
answered from the overlay; a key that falls through the overlay is
answered by the wrapped parent context; and the fall-through chains
through any number of nested carriers down to the base context. -/
theorem C9_ctx_value_chain {α : Type} (ov : List (String × α))
    (p : Ctx α) (key : String) (v : α) (k : CtxKey)
    (ovs : List (List (String × α))) (base : Ctx α)
    (hmiss : overlayMisses ov k = true)
    (hchain : ∀ o ∈ ovs, overlayMisses o k = true) :
    (carrierWithValue ov p key v).Value (.str key) = some v ∧
    (Ctx.carrier ov p).Value k = p.Value k ∧
    (nestCarriers ovs base).Value k = base.Value k := by
  refine ⟨?_, ?_, ?_⟩
  · simp [carrierWithValue, Ctx.Value, mapLookup_mapSet_self]
  · cases k with
    | str s =>
      simp only [overlayMisses, Option.isNone_iff_eq_none] at hmiss
      simp [Ctx.Value, hmiss]
    | nonStr tn nm => simp [Ctx.Value]
  · induction ovs with
    | nil => rfl
    | cons o rest ih =>
      have ho := hchain o (List.mem_cons_self o rest)
      have hrest : ∀ o2 ∈ rest, overlayMisses o2 k = true :=
        fun o2 hm => hchain o2 (List.mem_cons_of_mem o hm)
      rw [show nestCarriers (o :: rest) base
            = Ctx.carrier o (nestCarriers rest base) from rfl]
      cases k with
      | str s =>
        simp only [overlayMisses, Option.isNone_iff_eq_none] at ho
        simp only [Ctx.Value, ho]
        exact ih hrest
      | nonStr tn nm =>
        simp only [Ctx.Value]
        exact ih hrest

/-- Concrete instance of the C9 carrier lookup rules: an overlay hit, an
overlay miss delegating to the parent, and a two-carrier chain falling
through to the base context. -/
theorem C9_ctx_value_chain_witness :
    (carrierWithValue [("k1", (1 : Nat))]
        (Ctx.base (fun _ => some 7)) "k2" 2).Value (.str "k2") = some 2 ∧
    (Ctx.carrier [("k1", (1 : Nat))]
        (Ctx.base (fun _ => some 7))).Value (.str "k9")
      = (Ctx.base (fun _ => some (7 : Nat))).Value (.str "k9") ∧
    (nestCarriers [[("k1", (1 : Nat))], [("k3", 3)]]
        (Ctx.base (fun _ => some 7))).Value (.str "k9")
      = (Ctx.base (fun _ => some (7 : Nat))).Value (.str "k9") :=
  C9_ctx_value_chain [("k1", (1 : Nat))] (Ctx.base (fun _ => some 7))
    "k2" 2 (.str "k9") [[("k1", (1 : Nat))], [("k3", 3)]]
    (Ctx.base (fun _ => some 7)) (by decide)
    (by intro o hm
        simp only [List.mem_cons, List.mem_singleton] at hm
        rcases hm with h | h | h
        · subst h; decide
        · subst h; decide
        · cases h)

/-- C10: a Value call with a key of non-string dynamic type bypasses the
overlay entirely and is answered by the wrapped parent context, even when
the overlay holds an entry whose string name matches the key. -/
theorem C10_nonstring_key_bypasses_overlay {α : Type}
    (ov : List (String × α)) (p : Ctx α) (tn nm : String) (v : α) :
    (Ctx.carrier ov p).Value (.nonStr tn nm) = p.Value (.nonStr tn nm) ∧
    (Ctx.carrier (mapSet ov nm v) p).Value (.nonStr tn nm)
      = p.Value (.nonStr tn nm) := by
  exact ⟨rfl, rfl⟩

/-! ## Claim C2: expiry correctness -/

theorem decodeFileItem_encodeFileItem (bs : List Nat) (e : Nat) :
    decodeFileItem (encodeFileItem bs e) = some (bs, e) := by
  simp [encodeFileItem, decodeFileItem, List.take_left, List.drop_left]

/-- Deserializing a stream produced by Serialize always succeeds,
merging the serialized entries into the data mapping of the receiving
session. -/
theorem deserialize_of_serialize (s t : Session) (bytes : List Nat)
    (h : s.Serialize = some bytes) :
    t.Deserialize bytes
      = some { t with data := mergeEntries t.data s.data } := by
  simp only [Session.Serialize] at h
  cases he : encodeEntries s.data with
  | none => rw [he] at h; simp at h
  | some bs =>
    rw [he] at h
    simp only [Option.map_some', Option.some.injEq] at h
    subst h
    have hdec : decodeEntries s.data.length bs = some (s.data, []) := by
      have hd := decodeEntries_encodeEntries s.data bs [] he
      rwa [List.append_nil] at hd
    simp [Session.Deserialize, hdec]

/-- Evaluation of inMemGet on an ID whose slot is occupied. -/
theorem inMemGet_eval (store : List (String × SessionItem)) (id : String)
    (now : Nat) (item : SessionItem)
    (h : mapLookup store id = some item) :
    inMemGet store id now =
      if item.expiration < now then
        (store, .error .errSessionNotFound)
      else
        (mapSet store id
          { item with session := { item.session with isDirty := false } },
         .ok { item.session with isDirty := false }) := by
  unfold inMemGet
  rw [h]

/-- Evaluation of fileGet once readSession has produced a decoded item. -/
theorem fileGet_eval (fs : List (String × List Nat)) (id : String)
    (now : Nat) (dataBytes : List Nat) (expiration : Nat)
    (h : readSession fs id = .ok (dataBytes, expiration)) :
    fileGet fs id now =
      if expiration < now then .error .errSessionNotFound
      else
        match (NewSession id).Deserialize dataBytes with
        | some s => .ok s
        | none => .error .panicked := by
  unfold fileGet
  rw [h]

/-- After a valid inMemSave the slot for the session ID holds some session
with expiration exactly save time plus timeout. -/
theorem inMemSave_lookup_valid (store : List (String × SessionItem))
    (s : Session) (timeout t0 : Nat) (hv : s.IsValid = true) :
    ∃ sess, mapLookup (inMemSave store s timeout t0) s.ID
      = some ⟨sess, t0 + timeout⟩ := by
  unfold inMemSave
  rw [hv]
  simp only [if_true]
  split
  · split
    · exact ⟨_, mapLookup_mapSet_self _ _ _⟩
    · exact ⟨s, mapLookup_mapSet_self _ _ _⟩
  · exact ⟨s, mapLookup_mapSet_self _ _ _⟩

/-- C2: after Save of a valid session with a timeout at save instant t0,
Get succeeds at every instant strictly before t0 plus timeout, and yields
ErrSessionNotFound at every instant strictly after the stored expiration
t0 plus timeout, for the in-memory and the file store alike, with no
reliance on the garbage sweep having removed anything. -/
theorem C2_expiry_correctness (store : List (String × SessionItem))
    (fs : List (String × List Nat)) (s : Session) (timeout t0 now : Nat)
    (hv : s.IsValid = true) :
    (now < t0 + timeout →
      ∃ s1, (inMemGet (inMemSave store s timeout t0) s.ID now).2
        = .ok s1) ∧
    (t0 + timeout < now →
      (inMemGet (inMemSave store s timeout t0) s.ID now).2
        = .error .errSessionNotFound) ∧
    (∀ fs1 e1, fileSave fs s timeout t0 false = some (fs1, e1) →
      (now < t0 + timeout → ∃ s2, fileGet fs1 s.ID now = .ok s2) ∧
      (t0 + timeout < now →
        fileGet fs1 s.ID now = .error .errSessionNotFound)) := by
  obtain ⟨sess, hsl⟩ := inMemSave_lookup_valid store s timeout t0 hv
  refine ⟨?_, ?_, ?_⟩
  · intro hnow
    refine ⟨{ sess with isDirty := false }, ?_⟩
    rw [inMemGet_eval _ _ now _ hsl, if_neg (by simp only []; omega)]
  · intro hnow
    rw [inMemGet_eval _ _ now _ hsl, if_pos (by simp only []; omega)]
  · intro fs1 e1 hsave
    unfold fileSave at hsave
    rw [hv] at hsave
    simp only [if_true] at hsave
    cases hser : s.Serialize with
    | none => rw [hser] at hsave; simp at hsave
    | some bytes =>
      rw [hser] at hsave
      simp only [Option.some.injEq, Prod.mk.injEq] at hsave
      obtain ⟨hfs1, he1⟩ := hsave
      subst hfs1
      have hread : readSession
          (mapSet fs s.ID (encodeFileItem bytes (t0 + timeout))) s.ID
          = .ok (bytes, t0 + timeout) := by
        simp [readSession, mapLookup_mapSet_self,
          decodeFileItem_encodeFileItem]
      constructor
      · intro hnow
        refine ⟨{ NewSession s.ID with
                    data := mergeEntries (NewSession s.ID).data s.data },
                ?_⟩
        rw [fileGet_eval _ _ now _ _ hread, if_neg (by omega),
            deserialize_of_serialize s _ bytes hser]
      · intro hnow
        rw [fileGet_eval _ _ now _ _ hread, if_pos (by omega)]

/-- Concrete instance of C2: a session saved at instant 0 with timeout 10
is retrievable at instant 5 and gone at instant 11, in both the in-memory
and the file store. -/
theorem C2_expiry_correctness_witness :
    (∃ s1, (inMemGet
        (inMemSave [] (Session.mk "sid" true false []) 10 0) "sid" 5).2
      = .ok s1) ∧
    ((inMemGet
        (inMemSave [] (Session.mk "sid" true false []) 10 0) "sid" 11).2
      = .error .errSessionNotFound) ∧
    (∃ s2, fileGet [("sid", [1, 0, 10])] "sid" 5 = .ok s2) ∧
    (fileGet [("sid", [1, 0, 10])] "sid" 11
      = .error .errSessionNotFound) := by
  have hsave : fileSave [] (Session.mk "sid" true false []) 10 0 false
      = some ([("sid", [1, 0, 10])], none) := rfl
  refine ⟨(C2_expiry_correctness [] [] (Session.mk "sid" true false [])
            10 0 5 rfl).1 (by omega),
          (C2_expiry_correctness [] [] (Session.mk "sid" true false [])
            10 0 11 rfl).2.1 (by omega),
          ((C2_expiry_correctness [] [] (Session.mk "sid" true false [])
            10 0 5 rfl).2.2 _ _ hsave).1 (by omega),
          ((C2_expiry_correctness [] [] (Session.mk "sid" true false [])
            10 0 11 rfl).2.2 _ _ hsave).2 (by omega)⟩

/-! ## Claim C5: in-memory save frame effect -/

/-- Evaluation of a valid inMemSave when the slot is occupied. -/
theorem inMemSave_eval_some (store : List (String × SessionItem))
    (s : Session) (timeout now : Nat) (item : SessionItem)
    (h : mapLookup store s.ID = some item) (hv : s.IsValid = true) :
    inMemSave store s timeout now =
      if item.session.IsValid = true ∧ now < item.expiration then
        mapSet store s.ID ⟨item.session, now + timeout⟩
      else mapSet store s.ID ⟨s, now + timeout⟩ := by
  unfold inMemSave
  rw [hv, h]
  rfl

/-- Evaluation of a valid inMemSave when the slot is empty. -/
theorem inMemSave_eval_none (store : List (String × SessionItem))
    (s : Session) (timeout now : Nat)
    (h : mapLookup store s.ID = none) (hv : s.IsValid = true) :
    inMemSave store s timeout now = mapSet store s.ID ⟨s, now + timeout⟩ := by
  unfold inMemSave
  rw [hv, h]
  rfl

/-- Evaluation of inMemSave on an invalid session: the slot is deleted. -/
theorem inMemSave_eval_invalid (store : List (String × SessionItem))
    (s : Session) (timeout now : Nat) (hv : s.IsValid = false) :
    inMemSave store s timeout now = mapDelete store s.ID := by
  unfold inMemSave
  rw [hv]
  rfl

/-- C5: a valid in-memory Save onto an existing, still-valid slot whose
expiration is still strictly in the future only moves that expiration to
now plus timeout and keeps the stored Session object in the slot; a Save
onto a missing slot, or onto a slot whose session is invalid or whose
expiration has been reached, replaces the slot wholesale with the given
session; slots of other IDs are untouched in every case. -/
theorem C5_inmem_save_frame (store : List (String × SessionItem))
    (s : Session) (timeout now : Nat) (hv : s.IsValid = true) :
    (∀ item, mapLookup store s.ID = some item →
      item.session.IsValid = true → now < item.expiration →
      inMemSave store s timeout now
        = mapSet store s.ID ⟨item.session, now + timeout⟩) ∧
    (mapLookup store s.ID = none →
      inMemSave store s timeout now
        = mapSet store s.ID ⟨s, now + timeout⟩) ∧
    (∀ item, mapLookup store s.ID = some item →
      (item.session.IsValid = false ∨ item.expiration ≤ now) →
      inMemSave store s timeout now
        = mapSet store s.ID ⟨s, now + timeout⟩) ∧
    (∀ k, k ≠ s.ID →
      mapLookup (inMemSave store s timeout now) k = mapLookup store k) := by
  refine ⟨?_, ?_, ?_, ?_⟩
  · intro item hl hiv hexp
    rw [inMemSave_eval_some store s timeout now item hl hv,
        if_pos ⟨hiv, hexp⟩]
  · intro hl
    exact inMemSave_eval_none store s timeout now hl hv
  · intro item hl hdisj
    rw [inMemSave_eval_some store s timeout now item hl hv]
    rw [if_neg ?_]
    rintro ⟨ha, hb⟩
    rcases hdisj with hf | hle
    · rw [hf] at ha
      exact absurd ha (by simp)
    · omega
  · intro k hk
    have hne : s.ID ≠ k := fun h => hk h.symm
    cases hl : mapLookup store s.ID with
    | none =>
      rw [inMemSave_eval_none store s timeout now hl hv,
          mapLookup_mapSet_ne _ _ hne]
    | some item =>
      rw [inMemSave_eval_some store s timeout now item hl hv]
      by_cases hc : item.session.IsValid = true ∧ now < item.expiration
      · rw [if_pos hc, mapLookup_mapSet_ne _ _ hne]
      · rw [if_neg hc, mapLookup_mapSet_ne _ _ hne]

/-- Concrete instance of C5: extending a live slot keeps the stored
session object; a missing, invalid, or timed-out slot is replaced by the
saved session; and an unrelated slot is untouched. -/
theorem C5_inmem_save_frame_witness :
    (inMemSave
        [("sid", ⟨Session.mk "sid" true false [("a", GobValue.int 1)], 10⟩)]
        (Session.mk "sid" true false []) 20 5
      = mapSet
          [("sid", ⟨Session.mk "sid" true false [("a", GobValue.int 1)], 10⟩)]
          "sid" ⟨Session.mk "sid" true false [("a", GobValue.int 1)], 25⟩) ∧
    (inMemSave [] (Session.mk "sid" true false []) 20 5
      = mapSet [] "sid" ⟨Session.mk "sid" true false [], 25⟩) ∧
    (inMemSave [("sid", ⟨Session.mk "sid" false false [], 10⟩)]
        (Session.mk "sid" true false []) 20 5
      = mapSet [("sid", ⟨Session.mk "sid" false false [], 10⟩)]
          "sid" ⟨Session.mk "sid" true false [], 25⟩) ∧
    (mapLookup
        (inMemSave
          [("other", ⟨Session.mk "other" true false [], 10⟩)]
          (Session.mk "sid" true false []) 20 5) "other"
      = mapLookup
          [("other", ⟨Session.mk "other" true false [], 10⟩)] "other") :=
  ⟨(C5_inmem_save_frame
      [("sid", ⟨Session.mk "sid" true false [("a", GobValue.int 1)], 10⟩)]
      (Session.mk "sid" true false []) 20 5 rfl).1
      ⟨Session.mk "sid" true false [("a", GobValue.int 1)], 10⟩
      rfl rfl (by decide),
   (C5_inmem_save_frame [] (Session.mk "sid" true false [])
      20 5 rfl).2.1 rfl,
   (C5_inmem_save_frame [("sid", ⟨Session.mk "sid" false false [], 10⟩)]
      (Session.mk "sid" true false []) 20 5 rfl).2.2.1
      ⟨Session.mk "sid" false false [], 10⟩ rfl (Or.inl rfl),
   (C5_inmem_save_frame
      [("other", ⟨Session.mk "other" true false [], 10⟩)]
      (Session.mk "sid" true false []) 20 5 rfl).2.2.2
      "other" (by decide)⟩

/-! ## Claim C3: invalidation -/

/-- C3 counterexample: after Save of an invalid session, a later Save
with the same ID and IsValid true makes Get succeed again, so Get does
not return ErrSessionNotFound regardless of later valid saves. -/
theorem C3_invalidation_counterexample :
    (inMemGet
      (inMemSave (inMemSave [] (Session.mk "sid" false false []) 10 0)
        (Session.mk "sid" true false []) 10 1) "sid" 2).2
      ≠ Except.error StoreError.errSessionNotFound := by
  intro h
  have he : (inMemGet
      (inMemSave (inMemSave [] (Session.mk "sid" false false []) 10 0)
        (Session.mk "sid" true false []) 10 1) "sid" 2).2
      = Except.ok (Session.mk "sid" true false []) := rfl
  rw [he] at h
  exact Except.noConfusion h

/-- C3 amended: after Save of an invalid session, Get with that ID
returns ErrSessionNotFound at every instant — in the in-memory store and,
when the file removal succeeds, in the file store — until a later Save
with the same ID and IsValid true stores the session again, after which
Get succeeds within the new expiration window (last writer wins). -/
theorem C3_invalidation_amended (store : List (String × SessionItem))
    (fs : List (String × List Nat)) (s : Session) (timeout t0 now : Nat)
    (hv : s.IsValid = false) :
    ((inMemGet (inMemSave store s timeout t0) s.ID now).2
      = .error .errSessionNotFound) ∧
    (∀ fs1 e1, fileSave fs s timeout t0 false = some (fs1, e1) →
      fileGet fs1 s.ID now = .error .errSessionNotFound) ∧
    (∀ s2 timeout2 t1 now2, s2.IsValid = true → s2.ID = s.ID →
      now2 ≤ t1 + timeout2 →
      ∃ sr, (inMemGet
        (inMemSave (inMemSave store s timeout t0) s2 timeout2 t1)
        s.ID now2).2 = .ok sr) := by
  have hdel : inMemSave store s timeout t0 = mapDelete store s.ID :=
    inMemSave_eval_invalid store s timeout t0 hv
  refine ⟨?_, ?_, ?_⟩
  · rw [hdel]
    unfold inMemGet
    rw [mapLookup_mapDelete_self]
  · intro fs1 e1 hsave
    unfold fileSave at hsave
    rw [hv] at hsave
    simp only [Bool.false_eq_true, if_false, Option.some.injEq,
      Prod.mk.injEq] at hsave
    obtain ⟨hfs1, he1⟩ := hsave
    subst hfs1
    unfold fileGet readSession
    rw [mapLookup_mapDelete_self]
  · intro s2 timeout2 t1 now2 hv2 hid hn
    rw [hdel]
    have hl : mapLookup (mapDelete store s.ID) s2.ID = none := by
      rw [hid]
      exact mapLookup_mapDelete_self store s.ID
    have hsave2 := inMemSave_eval_none (mapDelete store s.ID) s2
      timeout2 t1 hl hv2
    rw [hsave2]
    have hlook : mapLookup
        (mapSet (mapDelete store s.ID) s2.ID ⟨s2, t1 + timeout2⟩) s.ID
        = some ⟨s2, t1 + timeout2⟩ := by
      rw [← hid]
      exact mapLookup_mapSet_self _ _ _
    refine ⟨{ s2 with isDirty := false }, ?_⟩
    rw [inMemGet_eval _ _ now2 _ hlook, if_neg (by simp only []; omega)]

/-- Concrete instance of the amended C3: an invalidated session is gone
from both stores, and a later valid Save with the same ID resurrects
it. -/
theorem C3_invalidation_amended_witness :
    ((inMemGet (inMemSave [("sid", ⟨Session.mk "sid" true false [], 10⟩)]
        (Session.mk "sid" false false []) 10 0) "sid" 1).2
      = .error .errSessionNotFound) ∧
    (fileGet (mapDelete [("sid", [1, 0, 10])] "sid") "sid" 1
      = .error .errSessionNotFound) ∧
    (∃ sr, (inMemGet
        (inMemSave (inMemSave [("sid", ⟨Session.mk "sid" true false [], 10⟩)]
          (Session.mk "sid" false false []) 10 0)
          (Session.mk "sid" true false []) 10 1) "sid" 2).2 = .ok sr) :=
  ⟨(C3_invalidation_amended [("sid", ⟨Session.mk "sid" true false [], 10⟩)]
      [("sid", [1, 0, 10])] (Session.mk "sid" false false []) 10 0 1
      rfl).1,
   (C3_invalidation_amended [("sid", ⟨Session.mk "sid" true false [], 10⟩)]
      [("sid", [1, 0, 10])] (Session.mk "sid" false false []) 10 0 1
      rfl).2.1 _ _ rfl,
   (C3_invalidation_amended [("sid", ⟨Session.mk "sid" true false [], 10⟩)]
      [("sid", [1, 0, 10])] (Session.mk "sid" false false []) 10 0 1
      rfl).2.2 (Session.mk "sid" true false []) 10 1 2 rfl rfl
      (by omega)⟩

/-! ## Claim C8: best-effort delete on invalidation -/

/-- C8 counterexample: the redis store propagates a failing Del to the
caller when saving an invalid session, so the delete is not logged-only
in every store. -/
theorem C8_bestEffort_counterexample :
    redisSave ⟨[("sid", [0])], true⟩ (Session.mk "sid" false false [])
      = some (⟨[("sid", [0])], true⟩, some StoreError.ioError) ∧
    some StoreError.ioError ≠ (none : Option StoreError) :=
  ⟨rfl, by simp⟩

/-- C8 amended: on saving an invalid session the file store returns a nil
error even when the file removal fails (the failure is logged only), and
the in-memory delete cannot fail; the redis store however returns the
error of the Del command to the caller when the backend fails, and a nil
error only when Del succeeds. -/
theorem C8_bestEffort_amended (fs : List (String × List Nat))
    (st : RedisState) (s : Session) (timeout now : Nat)
    (hv : s.IsValid = false) :
    (∀ rf : Bool, fileSave fs s timeout now rf
      = some (if rf then fs else mapDelete fs s.ID, none)) ∧
    (st.delFails = true → redisSave st s = some (st, some .ioError)) ∧
    (st.delFails = false →
      redisSave st s = some ({ st with kv := mapDelete st.kv s.ID }, none)) := by
  refine ⟨?_, ?_, ?_⟩
  · intro rf
    unfold fileSave
    rw [hv]
    rfl
  · intro hd
    unfold redisSave
    rw [hv, hd]
    rfl
  · intro hd
    unfold redisSave
    rw [hv, hd]
    rfl

/-- Concrete instance of the amended C8: the file store reports no error
whether or not the removal fails, while redis propagates the Del error
exactly when the backend fails. -/
theorem C8_bestEffort_amended_witness :
    (fileSave [("sid", [1, 0, 10])] (Session.mk "sid" false false [])
        10 0 true = some ([("sid", [1, 0, 10])], none)) ∧
    (fileSave [("sid", [1, 0, 10])] (Session.mk "sid" false false [])
        10 0 false
      = some (mapDelete [("sid", [1, 0, 10])] "sid", none)) ∧
    (redisSave ⟨[("sid", [0])], true⟩ (Session.mk "sid" false false [])
      = some (⟨[("sid", [0])], true⟩, some .ioError)) ∧
    (redisSave ⟨[("sid", [0])], false⟩ (Session.mk "sid" false false [])
      = some (⟨mapDelete [("sid", [0])] "sid", false⟩, none)) :=
  ⟨(C8_bestEffort_amended [("sid", [1, 0, 10])] ⟨[("sid", [0])], true⟩
      (Session.mk "sid" false false []) 10 0 rfl).1 true,
   (C8_bestEffort_amended [("sid", [1, 0, 10])] ⟨[("sid", [0])], true⟩
      (Session.mk "sid" false false []) 10 0 rfl).1 false,
   (C8_bestEffort_amended [("sid", [1, 0, 10])] ⟨[("sid", [0])], true⟩
      (Session.mk "sid" false false []) 10 0 rfl).2.1 rfl,
   (C8_bestEffort_amended [("sid", [1, 0, 10])] ⟨[("sid", [0])], false⟩
      (Session.mk "sid" false false []) 10 0 rfl).2.2 rfl⟩

/-! ## Claim C4: corrupt persisted entries -/

/-- C4 exhibit: a persisted file entry that is present but cannot be
decoded makes fileGet return the raw decode error, not
ErrSessionNotFound; an entry whose outer wrapper decodes but whose data
bytes are undecodable makes fileGet and redisGet hit the path on which
Session.Deserialize panics in the source, which the model marks by
StoreError.panicked. -/
theorem C4_corrupt_entry_exhibit :
    readSession [("sid", [5])] "sid" = .error .decodeError ∧
    fileGet [("sid", [5])] "sid" 0 = .error .decodeError ∧
    StoreError.decodeError ≠ StoreError.errSessionNotFound ∧
    fileGet [("sid2", [1, 7, 10])] "sid2" 0 = .error .panicked ∧
    (NewSession "sid2").Deserialize [7] = none ∧
    redisGet ⟨[("sid", [7])], false⟩ "sid" = .error .panicked :=
  ⟨rfl, rfl, by decide, rfl, rfl, rfl⟩

end Cypress
